import Mathlib

/-!
Verification of the CWA binary decoder (`cwa_load.py`) of the
openmovement-python repository.

The Python source is shallowly embedded: byte buffers become `List Nat`
(each element a byte value), little-endian field extraction, the packed
timestamp codecs, the sector checksum, the packed-DWORD sample decoder,
the per-sector slow parser `_parse_cwa_data` and the vectorized pipeline
of the `CwaData` class become executable Lean functions.  Machine
arithmetic is modelled with `Nat`/`Int` (with explicit masks where the
source wraps) and exact rational arithmetic `ℚ` where the source uses
Python floats on values that are exactly representable (binary fractions
well inside 53 bits of precision).
-/

set_option maxRecDepth 8000

namespace Cwa

/-! ## Byte-buffer helpers (little-endian field extraction) -/

/-- Little-endian unsigned 16-bit word at byte offset `i` (struct unpack, format `<H`). -/
def leU16 (b : List Nat) (i : Nat) : Nat :=
  b.getD i 0 + 256 * b.getD (i + 1) 0

/-- Little-endian unsigned 32-bit word at byte offset `i` (struct unpack, format `<I`). -/
def leU32 (b : List Nat) (i : Nat) : Nat :=
  b.getD i 0 + 256 * b.getD (i + 1) 0 + 65536 * b.getD (i + 2) 0 +
    16777216 * b.getD (i + 3) 0

/-- Little-endian signed 16-bit word at byte offset `i` (struct unpack, format `<h`). -/
def leS16 (b : List Nat) (i : Nat) : Int :=
  if leU16 b i < 32768 then (leU16 b i : Int) else (leU16 b i : Int) - 65536

/-! ## Timestamp codec

The packed 32-bit date/time has bit layout `YYYYYYMM MMDDDDDh hhhhmmmm mmssssss`
(6-bit year offset from 2000, 4-bit month, 5-bit day, 5-bit hour, 6-bit
minute, 6-bit second).
-/

/-- `DAYS_IN_MONTH` table of `_fast_timestamp`: invalid month 0, months 1-12
(non-leap year), invalid months 13-15. -/
def DAYS_IN_MONTH : List Nat :=
  [0, 31, 28, 31, 30, 31, 30, 31, 31, 30, 31, 30, 31, 0, 0, 0]

/-- Number of days the `_fast_timestamp` table-building loop adds for table
index `(year <<< 4) + month` (`year` is the offset from 2000). -/
def monthLen (year month : Nat) : Nat :=
  DAYS_IN_MONTH.getD month 0 + (if year % 4 == 0 && month == 2 then 1 else 0)

/-- Running value of `seconds_before` in the `_fast_timestamp` table-building
loop, just before processing table index `idx` (the loop runs `idx` from 0,
i.e. year-major then month).  Starts at 946684800, the seconds from the UNIX
epoch (1970) to the device epoch (2000). -/
def secondsBefore : Nat → Nat
  | 0 => 946684800
  | idx + 1 => secondsBefore idx + monthLen (idx / 16) (idx % 16) * 86400

/-- `_fast_timestamp.SECONDS_BEFORE_YEAR_MONTH[idx]`: the running
`seconds_before` minus one day (day-of-month is 1-based). -/
def SECONDS_BEFORE_YEAR_MONTH (idx : Nat) : Nat :=
  secondsBefore idx - 86400

/-- `_fast_timestamp(value)`: table lookup on the top 10 bits plus direct
arithmetic on day/hour/minute/second.  No sentinel handling, no calendar
validation. -/
def fastTimestamp (value : Nat) : Nat :=
  let year_month := (value >>> 22) &&& 0x3ff
  let day := (value >>> 17) &&& 0x1f
  let hours := (value >>> 12) &&& 0x1f
  let mins := (value >>> 6) &&& 0x3f
  let secs := value &&& 0x3f
  SECONDS_BEFORE_YEAR_MONTH year_month + ((day * 24 + hours) * 60 + mins) * 60 + secs

/-- Proleptic-Gregorian leap-year rule, as used by the Python `datetime` module. -/
def isLeapYear (y : Nat) : Bool :=
  y % 4 == 0 && (y % 100 != 0 || y % 400 == 0)

/-- Length of month `m` of year `y` in the Gregorian calendar
(the `_days_in_month` helper of `datetime`). -/
def daysInMonthGreg (y m : Nat) : Nat :=
  if m == 2 && isLeapYear y then 29
  else [0, 31, 28, 31, 30, 31, 30, 31, 31, 30, 31, 30, 31].getD m 0

/-- Days before January 1st of year `y`, counted from year 1
(the `_days_before_year` helper of `datetime`). -/
def daysBeforeYear (y : Nat) : Nat :=
  365 * (y - 1) + (y - 1) / 4 - (y - 1) / 100 + (y - 1) / 400

/-- Days before the first of month `m` in year `y`
(the `_days_before_month` helper of `datetime`). -/
def daysBeforeMonth (y m : Nat) : Nat :=
  [0, 0, 31, 59, 90, 120, 151, 181, 212, 243, 273, 304, 334].getD m 0 +
    (if 2 < m && isLeapYear y then 1 else 0)

/-- `datetime.toordinal()`: proleptic-Gregorian ordinal of a date
(0001-01-01 is ordinal 1). -/
def toOrdinal (y m d : Nat) : Nat :=
  daysBeforeYear y + daysBeforeMonth y m + d

/-- The calendar validation performed by the `datetime` constructor for the
field ranges reachable from a packed timestamp (the year, 2000-2063, is
always in the legal range of `datetime`). -/
def dateTimeValid (y m d h mi s : Nat) : Bool :=
  1 ≤ m && m ≤ 12 && 1 ≤ d && d ≤ daysInMonthGreg y m && h < 24 && mi < 60 && s < 60

/-- `_parse_timestamp(value)`: sentinel values 0 (always before now) and
0xFFFFFFFF (always after now, result -1); otherwise decode the bit fields,
build a `datetime` (invalid dates yield -1 with a warning) and return the
whole seconds since the UNIX epoch (`(dt - EPOCH).total_seconds()`). -/
def parseTimestamp (value : Nat) : Int :=
  if value == 0x00000000 then 0
  else if value == 0xffffffff then -1
  else
    let year := ((value >>> 26) &&& 0x3f) + 2000
    let month := (value >>> 22) &&& 0x0f
    let day := (value >>> 17) &&& 0x1f
    let hours := (value >>> 12) &&& 0x1f
    let mins := (value >>> 6) &&& 0x3f
    let secs := value &&& 0x3f
    if dateTimeValid year month day hours mins secs then
      ((toOrdinal year month day : Int) - (toOrdinal 1970 1 1 : Int)) * 86400 +
        (hours * 3600 + mins * 60 + secs : Nat)
    else -1

/-- Days accumulated by the table-building loop strictly inside year `y`
(offset from 2000): the sum of `monthLen y k` over table months `k < m`. -/
def cumDaysLoop (y : Nat) : Nat → Nat
  | 0 => 0
  | m + 1 => cumDaysLoop y m + monthLen y m

/-- The running `seconds_before` never drops below its initial value. -/
theorem secondsBefore_ge (idx : Nat) : 946684800 ≤ secondsBefore idx := by
  induction idx with
  | zero => simp [secondsBefore]
  | succ n ih => calc 946684800 ≤ secondsBefore n := ih
      _ ≤ _ := by simp [secondsBefore]

/-- Advancing the table-building loop over one whole 16-slot year block adds
exactly the Gregorian year length: the `% 4` leap rule used by the loop agrees
with the proleptic-Gregorian rule for the years 2000-2063. -/
theorem daysBeforeYear_step (q : Nat) (hq : q < 64) :
    daysBeforeYear (2001 + q) = daysBeforeYear (2000 + q) + cumDaysLoop q 16 := by
  revert q
  decide

/-- Invariant of the `_fast_timestamp` table-building loop: the accumulated
seconds at index `idx` measure the Gregorian ordinal of the first day of the
(year, month) slot `idx`, anchored at the UNIX epoch ordinal 719163. -/
theorem secondsBefore_closed (idx : Nat) (h : idx ≤ 1024) :
    secondsBefore idx + 719163 * 86400 =
      86400 * (daysBeforeYear (2000 + idx / 16) + cumDaysLoop (idx / 16) (idx % 16) + 1) := by
  induction idx with
  | zero => decide
  | succ n ih =>
    have hn : n ≤ 1024 := Nat.le_of_succ_le h
    have ihn := ih hn
    have hstep : secondsBefore (n + 1) =
        secondsBefore n + monthLen (n / 16) (n % 16) * 86400 := rfl
    rcases Nat.lt_or_ge (n % 16) 15 with hr | hr
    · have h1 : (n + 1) / 16 = n / 16 := by omega
      have h2 : (n + 1) % 16 = n % 16 + 1 := by omega
      rw [hstep, h1, h2, cumDaysLoop]
      omega
    · have hr15 : n % 16 = 15 := by omega
      have h1 : (n + 1) / 16 = n / 16 + 1 := by omega
      have h2 : (n + 1) % 16 = 0 := by omega
      have hq : n / 16 < 64 := by omega
      have hy := daysBeforeYear_step (n / 16) hq
      have hc16 : cumDaysLoop (n / 16) 16 =
          cumDaysLoop (n / 16) 15 + monthLen (n / 16) 15 := rfl
      have hc0 : cumDaysLoop (n / 16 + 1) 0 = 0 := rfl
      have h2001 : 2001 + n / 16 = 2000 + (n / 16 + 1) := by omega
      rw [hstep, hr15]
      rw [hr15] at ihn
      rw [h1, h2, hc0]
      rw [h2001] at hy
      omega

/-- Inside one year, the days accumulated by the table-building loop before a
valid month `m` equal the days-before-month of `datetime` for that year. -/
theorem cumDaysLoop_eq_daysBeforeMonth (q : Nat) (hq : q < 64) (m : Nat)
    (hm1 : 1 ≤ m) (hm2 : m ≤ 12) :
    cumDaysLoop q m = daysBeforeMonth (2000 + q) m := by
  revert m
  revert q
  decide

/-- The `_fast_timestamp` lookup table is correct: the entry for a valid
(year, month) slot is the UNIX-epoch timestamp of the first day of that month
(expressed here without truncated subtraction). -/
theorem secondsBefore_toOrdinal (y m : Nat) (hy : y < 64) (hm1 : 1 ≤ m) (hm2 : m ≤ 12) :
    secondsBefore (16 * y + m) + 719163 * 86400 = 86400 * toOrdinal (2000 + y) m 1 := by
  have hidx : 16 * y + m ≤ 1024 := by omega
  have h := secondsBefore_closed (16 * y + m) hidx
  have h1 : (16 * y + m) / 16 = y := by omega
  have h2 : (16 * y + m) % 16 = m := by omega
  rw [h1, h2] at h
  rw [cumDaysLoop_eq_daysBeforeMonth y hy m hm1 hm2] at h
  rw [toOrdinal]
  omega

/-- `datetime(1970,1,1).toordinal()`, the subtrahend of `(dt - EPOCH)`. -/
theorem ord1970 : toOrdinal 1970 1 1 = 719163 := by decide

/-- C2: for every packed 32-bit timestamp value whose bit fields form a valid
calendar date-time (year 2000-2063 automatic from the 6-bit field, month in
[1,12], day valid for that month in the proleptic Gregorian calendar,
hour < 24, minute < 60, second < 60), the lookup-table decoder
`_fast_timestamp` and the calendar-library decoder `_parse_timestamp` return
the same seconds-since-Unix-epoch value. -/
theorem c2_fast_timestamp_eq_parse_timestamp (value : Nat) (hv : value < 4294967296)
    (hm1 : 1 ≤ (value >>> 22) &&& 0x0f) (hm2 : (value >>> 22) &&& 0x0f ≤ 12)
    (hd1 : 1 ≤ (value >>> 17) &&& 0x1f)
    (hd2 : (value >>> 17) &&& 0x1f ≤
      daysInMonthGreg (((value >>> 26) &&& 0x3f) + 2000) ((value >>> 22) &&& 0x0f))
    (hh : (value >>> 12) &&& 0x1f < 24)
    (hmi : (value >>> 6) &&& 0x3f < 60)
    (hs : value &&& 0x3f < 60) :
    (fastTimestamp value : Int) = parseTimestamp value := by
  have m4 : ∀ a : Nat, a &&& 15 = a % 16 := fun a => Nat.and_pow_two_sub_one_eq_mod a 4
  have m5 : ∀ a : Nat, a &&& 31 = a % 32 := fun a => Nat.and_pow_two_sub_one_eq_mod a 5
  have m6 : ∀ a : Nat, a &&& 63 = a % 64 := fun a => Nat.and_pow_two_sub_one_eq_mod a 6
  have m10 : ∀ a : Nat, a &&& 1023 = a % 1024 := fun a => Nat.and_pow_two_sub_one_eq_mod a 10
  have hne0 : ¬(value == 0) = true := by
    intro h
    rw [beq_iff_eq] at h
    subst h
    exact absurd hm1 (by decide)
  have hneF : ¬(value == 4294967295) = true := by
    intro h
    rw [beq_iff_eq] at h
    subst h
    exact absurd hm2 (by decide)
  have h2226 : value >>> 26 = (value >>> 22) / 16 := by
    rw [Nat.shiftRight_eq_div_pow, Nat.shiftRight_eq_div_pow, Nat.div_div_eq_div_mul]
  simp only [m4, m5, m6, m10, h2226] at hm1 hm2 hd1 hd2 hh hmi hs
  have hvalid : dateTimeValid ((value >>> 22) / 16 % 64 + 2000) ((value >>> 22) % 16)
      ((value >>> 17) % 32) ((value >>> 12) % 32) ((value >>> 6) % 64) (value % 64) = true := by
    simp only [dateTimeValid, Bool.and_eq_true, decide_eq_true_eq]
    refine ⟨⟨⟨⟨⟨⟨hm1, hm2⟩, hd1⟩, hd2⟩, hh⟩, hmi⟩, hs⟩
  rw [parseTimestamp]
  rw [if_neg hne0, if_neg hneF]
  simp only [m4, m5, m6, m10, h2226]
  rw [if_pos hvalid]
  rw [fastTimestamp]
  simp only [m4, m5, m6, m10, h2226, SECONDS_BEFORE_YEAR_MONTH]
  have hidx : (value >>> 22) % 1024 = 16 * ((value >>> 22) / 16 % 64) + (value >>> 22) % 16 := by
    omega
  rw [hidx]
  have hy64 : (value >>> 22) / 16 % 64 < 64 := Nat.mod_lt _ (by norm_num)
  have hL1 := secondsBefore_toOrdinal ((value >>> 22) / 16 % 64) ((value >>> 22) % 16) hy64 hm1 hm2
  have hge : 86400 ≤ secondsBefore (16 * ((value >>> 22) / 16 % 64) + (value >>> 22) % 16) :=
    le_trans (by norm_num) (secondsBefore_ge _)
  rw [ord1970]
  simp only [toOrdinal] at hL1 ⊢
  have hadd : ((value >>> 22) / 16 % 64) + 2000 = 2000 + ((value >>> 22) / 16 % 64) := by omega
  rw [hadd]
  omega

/-- Witness for C2: both decoders agree on the packed encoding of
2021-07-15 13:05:59, giving 1626354359. -/
theorem c2_fast_timestamp_eq_parse_timestamp_witness :
    (fastTimestamp 1440665979 : Int) = parseTimestamp 1440665979 :=
  c2_fast_timestamp_eq_parse_timestamp 1440665979 (by decide) (by decide) (by decide)
    (by decide) (by decide) (by decide) (by decide) (by decide)

/-- C5 counterexample: the claim says every decoder in the pipeline, the fast
lookup-table decoder included, maps the packed value 0x00000000 to timestamp
0; `_fast_timestamp` actually maps it to 946598400 (its table entry for
year 2000, month 0, minus one day, with no sentinel handling). -/
theorem c5_counterexample : ¬((fastTimestamp 0x00000000 : Int) = 0) := by decide

/-- C5 (amended): the slow calendar decoder `_parse_timestamp` maps
0x00000000 to 0 and 0xFFFFFFFF to -1, but the fast lookup-table decoder
`_fast_timestamp` has no sentinel handling: it maps 0x00000000 to 946598400
and 0xFFFFFFFF to a large positive value, not -1. -/
theorem c5_sentinel_values :
    parseTimestamp 0x00000000 = 0 ∧ parseTimestamp 0xffffffff = -1 ∧
      fastTimestamp 0x00000000 = 946598400 ∧ 0 < fastTimestamp 0xffffffff := by
  refine ⟨by decide, by decide, by decide, ?_⟩
  have h := secondsBefore_ge ((0xffffffff >>> 22) &&& 0x3ff)
  rw [fastTimestamp]
  simp only [SECONDS_BEFORE_YEAR_MONTH]
  omega

/-! ## Sector model: checksum and the slow per-sector parser -/

/-- The 256 little-endian 16-bit words of a 512-byte sector (the stride-2
loop of `_checksum`, equally the `<H`-typed numpy word view). -/
def sectorWords (b : List Nat) : List Nat :=
  (List.range 256).map (fun i => leU16 b (2 * i))

/-- `_checksum(data)`: 16-bit unsigned wrap-around running sum of the words
(`sum = (sum + value) & 0xffff`). -/
def checksum (b : List Nat) : Nat :=
  (sectorWords b).foldl (fun s v => (s + v) &&& 0xffff) 0

/-- Wrap an integer into the twos-complement int16 range. -/
def wrapS16 (n : Int) : Int :=
  (n + 32768) % 65536 - 32768

/-- `np.sum(np_sector_words, dtype=np.int16, axis=1)`: each unsigned word is
reinterpreted as int16 and the accumulation wraps to int16 at every step. -/
def checksumInt16 (b : List Nat) : Int :=
  ((sectorWords b).map (fun v : Nat => wrapS16 (v : Int))).foldl (fun s v => wrapS16 (s + v)) 0

theorem wrapS16_emod (x : Int) : wrapS16 x % 65536 = x % 65536 := by
  rw [wrapS16]
  omega

theorem foldl_mask_eq_sum_mod (ws : List Nat) (acc : Nat) (h : acc < 65536) :
    ws.foldl (fun s v => (s + v) &&& 0xffff) acc = (acc + ws.sum) % 65536 := by
  induction ws generalizing acc with
  | nil =>
    rw [List.foldl_nil, List.sum_nil, Nat.add_zero, Nat.mod_eq_of_lt h]
  | cons v ws ih =>
    rw [List.foldl_cons, List.sum_cons]
    have hmask : ∀ a : Nat, a &&& 65535 = a % 65536 :=
      fun a => Nat.and_pow_two_sub_one_eq_mod a 16
    rw [hmask]
    rw [ih _ (Nat.mod_lt _ (by norm_num))]
    omega

theorem foldl_wrapS16_eq_wrap_sum (ws : List Int) (acc : Int)
    (h1 : -32768 ≤ acc) (h2 : acc < 32768) :
    ws.foldl (fun s v => wrapS16 (s + v)) acc = wrapS16 (acc + ws.sum) := by
  induction ws generalizing acc with
  | nil => rw [List.foldl_nil, List.sum_nil, add_zero, wrapS16]; omega
  | cons v ws ih =>
    rw [List.foldl_cons, List.sum_cons]
    have hr1 : -32768 ≤ wrapS16 (acc + v) := by rw [wrapS16]; omega
    have hr2 : wrapS16 (acc + v) < 32768 := by rw [wrapS16]; omega
    rw [ih _ hr1 hr2]
    simp only [wrapS16]
    omega

theorem sum_map_wrapS16_emod (ws : List Nat) :
    ((ws.map (fun v : Nat => wrapS16 (v : Int))).sum) % 65536 = ((ws.sum : Nat) : Int) % 65536 := by
  induction ws with
  | nil => simp
  | cons v ws ih =>
    rw [List.map_cons, List.sum_cons, List.sum_cons]
    have hw := wrapS16_emod (v : Int)
    push_cast at ih ⊢
    omega

/-- The int16 wrap-around word sum of the vectorized pipeline is zero exactly
when the unsigned 16-bit wrap-around word sum of `_checksum` is zero. -/
theorem checksumInt16_eq_zero_iff (b : List Nat) :
    checksumInt16 b = 0 ↔ checksum b = 0 := by
  rw [checksumInt16, checksum]
  rw [foldl_wrapS16_eq_wrap_sum _ 0 (by norm_num) (by norm_num)]
  rw [foldl_mask_eq_sum_mod _ 0 (by norm_num)]
  have h1 := sum_map_wrapS16_emod (sectorWords b)
  rw [wrapS16]
  omega

/-- `3200/(1<<(15-(rate & 0x0f)))` as an exact rational (the Python float
quotient of 3200 by a power of two is exact). -/
def cwaFrequency (rateCode : Nat) : ℚ :=
  3200 / ((1 <<< (15 - (rateCode &&& 0x0f)) : Nat) : ℚ)

/-- `int(frequency)`: truncation of the configured rate to a whole number of
hertz (the rate is positive, so truncation is the floor, i.e. `Nat` division). -/
def intFrequency (rateCode : Nat) : Nat :=
  3200 / (1 <<< (15 - (rateCode &&& 0x0f)))

/-- The `timeFractional` local of `_parse_cwa_data`: 0 unless the top bit of
the device-fractional field is set, in which case the bottom 15 bits are used
as a 16-bit fractional second. -/
def timeFractionalOf (deviceFractional : Nat) : Nat :=
  if deviceFractional &&& 0x8000 ≠ 0 then (deviceFractional &&& 0x7fff) <<< 1 else 0

/-- The adjustment `_parse_cwa_data` makes to `timestampOffset`: when the fractional
bit is set, undo the backwards-compatible shim by adding the whole samples
the fractional timestamp accounts for (`(timeFractional * int(frequency)) >> 16`). -/
def adjustedTimestampOffset (deviceFractional rateCode : Nat) (tsOffset : Int) : Int :=
  if deviceFractional &&& 0x8000 ≠ 0 then
    tsOffset + ((timeFractionalOf deviceFractional * intFrequency rateCode) >>> 16 : Nat)
  else tsOffset

/-- The statement `timestamp += timeFractional / 65536` of `_parse_cwa_data` (unconditional;
`timeFractional` is 0 when the fractional bit is clear). -/
def adjustedTimestamp (deviceFractional : Nat) (ts : Int) : ℚ :=
  (ts : ℚ) + (timeFractionalOf deviceFractional : ℚ) / 65536

/-- The fields `_parse_cwa_data` derives from one 512-byte data sector (the
entries of its `data` dictionary used by the pipeline). -/
structure SectorData where
  deviceFractional : Nat
  sessionId : Nat
  sequenceId : Nat
  light : Nat
  rateCode : Nat
  numAxesBPS : Nat
  sampleCount : Nat
  frequency : ℚ
  timestamp : ℚ
  timestampOffset : Int
  channels : Nat
  bytesPerAxis : Nat
  bytesPerSample : Nat
  samplesPerSector : Nat
  accelAxis : Int
  gyroAxis : Int
  magAxis : Int
  accelUnit : Nat
  gyroRange : Nat
  gyroUnit : ℚ
  magUnit : Nat
  accelRange : Nat
  deriving Repr, DecidableEq

/-- `_parse_cwa_data(block)` (without sample extraction): `none` when the
block is shorter than 512 bytes, the "AX" header or 508 length does not
match, or the checksum does not sum to zero; otherwise the parsed fields. -/
def parseCwaData (b : List Nat) : Option SectorData :=
  if 512 ≤ b.length ∧ b.getD 0 0 = 65 ∧ b.getD 1 0 = 88 ∧ leU16 b 2 = 508 ∧ checksum b = 0 then
    let deviceFractional := leU16 b 4
    let light := leU16 b 18
    let rateCode := b.getD 24 0
    let numAxesBPS := b.getD 25 0
    let channels := (numAxesBPS >>> 4) &&& 0x0f
    let bytesPerAxis := numAxesBPS &&& 0x0f
    let bytesPerSample :=
      if bytesPerAxis = 0 ∧ channels = 3 then 4
      else if 0 < bytesPerAxis ∧ 0 < channels then bytesPerAxis * channels
      else 4
    let gyroRange := if (light >>> 10) &&& 0x07 ≠ 0 then 8000 / (1 <<< ((light >>> 10) &&& 0x07)) else 2000
    some {
      deviceFractional := deviceFractional
      sessionId := leU32 b 6
      sequenceId := leU32 b 10
      light := light &&& 0x3ff
      rateCode := rateCode
      numAxesBPS := numAxesBPS
      sampleCount := leU16 b 28
      frequency := cwaFrequency rateCode
      timestamp := adjustedTimestamp deviceFractional (parseTimestamp (leU32 b 14))
      timestampOffset := adjustedTimestampOffset deviceFractional rateCode (leS16 b 26)
      channels := channels
      bytesPerAxis := bytesPerAxis
      bytesPerSample := bytesPerSample
      samplesPerSector := 480 / bytesPerSample
      accelAxis := if 6 ≤ channels then 3 else if 3 ≤ channels then 0 else -1
      gyroAxis := if 6 ≤ channels then 0 else -1
      magAxis := if 9 ≤ channels then 6 else -1
      accelUnit := 1 <<< (8 + ((light >>> 13) &&& 0x07))
      gyroRange := gyroRange
      gyroUnit := (32768 : ℚ) / (gyroRange : ℚ)
      magUnit := 16
      accelRange := if rateCode ≠ 0 then 16 >>> (rateCode >>> 6) else 16
    }
  else none

/-- The per-sector validity predicate of `CwaData._parse_data`: zero int16
word sum, packet header word 22593 ("AX" little-endian), packet length 508,
and packing and rate codes matching the initial data format. -/
def validSector (b : List Nat) (fmt : SectorData) : Bool :=
  decide (checksumInt16 b = 0) && decide (leU16 b 0 = 22593) &&
    decide (leU16 b 2 = 508) && decide (b.getD 25 0 = fmt.numAxesBPS) &&
    decide (b.getD 24 0 = fmt.rateCode)

theorem byte_getD_lt (b : List Nat) (hb : b.all (fun x => decide (x < 256)) = true)
    (i : Nat) : b.getD i 0 < 256 := by
  induction b generalizing i with
  | nil => simp [List.getD]
  | cons x xs ih =>
    rw [List.all_cons, Bool.and_eq_true, decide_eq_true_eq] at hb
    cases i with
    | zero => exact hb.1
    | succ j => simpa using ih hb.2 j

/-- C1: a data sector is marked valid if and only if its 16-bit wrap-around
word sum is zero, its 2-byte packet header is "AX" (bytes 65, 88), its packet
length is 508, and its packing and rate codes equal those of the reference
data format; moreover the reference sector (the first data sector, which
`_parse_header` requires `_parse_cwa_data` to accept) is itself valid, so the
reference is the first valid sector. -/
theorem c1_valid_sector_iff (b f : List Nat) (fmt : SectorData)
    (hb : b.all (fun x => decide (x < 256)) = true)
    (hf : parseCwaData f = some fmt) :
    (validSector b fmt = true ↔
      (checksum b = 0 ∧ b.getD 0 0 = 65 ∧ b.getD 1 0 = 88 ∧ leU16 b 2 = 508 ∧
        b.getD 25 0 = fmt.numAxesBPS ∧ b.getD 24 0 = fmt.rateCode)) ∧
    validSector f fmt = true := by
  rw [parseCwaData] at hf
  split at hf
  case isTrue hgate =>
    obtain ⟨hlen, hf0, hf1, hflen, hfck⟩ := hgate
    simp only [Option.some.injEq] at hf
    subst hf
    have hb0 := byte_getD_lt b hb 0
    have hb1 := byte_getD_lt b hb 1
    have hhdr : leU16 b 0 = 22593 ↔ (b.getD 0 0 = 65 ∧ b.getD 1 0 = 88) := by
      simp only [leU16, Nat.zero_add]
      omega
    have hfw : leU16 f 0 = 22593 := by
      simp only [leU16, Nat.zero_add]
      rw [hf0, hf1]
    constructor
    · simp only [validSector, Bool.and_eq_true, decide_eq_true_eq,
        checksumInt16_eq_zero_iff, hhdr]
      tauto
    · simp [validSector, hfw, hflen, (checksumInt16_eq_zero_iff f).mpr hfck]
  case isFalse => exact absurd hf (by simp)

/-- A minimal synthetic 512-byte data sector: "AX" header, length 508,
numAxesBPS 0x32 (3 channels, 2 bytes per axis, i.e. accel-only WORD packing),
zeros elsewhere, and a final checksum word (29635) making the 16-bit word sum
of the whole sector wrap to zero. -/
def wBlock : List Nat :=
  [65, 88, 252, 1] ++ List.replicate 21 0 ++ [50] ++ List.replicate 484 0 ++ [195, 115]

/-- The sector data `_parse_cwa_data` extracts from `wBlock` (rate code 0,
numAxesBPS 0x32): the rational fields are kept in the exact form the parser
produces so that the parse evaluates to this record definitionally. -/
def wFmt : SectorData where
  deviceFractional := 0
  sessionId := 0
  sequenceId := 0
  light := 0
  rateCode := 0
  numAxesBPS := 50
  sampleCount := 0
  frequency := cwaFrequency 0
  timestamp := adjustedTimestamp 0 (parseTimestamp 0)
  timestampOffset := adjustedTimestampOffset 0 0 (leS16 wBlock 26)
  channels := 3
  bytesPerAxis := 2
  bytesPerSample := 6
  samplesPerSector := 80
  accelAxis := 0
  gyroAxis := -1
  magAxis := -1
  accelUnit := 256
  gyroRange := 2000
  gyroUnit := (32768 : ℚ) / ((2000 : Nat) : ℚ)
  magUnit := 16
  accelRange := 16

/-- Witness for C1 at the synthetic sector `wBlock` (serving as both the
reference sector and the sector under test). -/
theorem c1_valid_sector_iff_witness :
    (validSector wBlock wFmt = true ↔
      (checksum wBlock = 0 ∧ wBlock.getD 0 0 = 65 ∧ wBlock.getD 1 0 = 88 ∧
        leU16 wBlock 2 = 508 ∧ wBlock.getD 25 0 = wFmt.numAxesBPS ∧
        wBlock.getD 24 0 = wFmt.rateCode)) ∧
    validSector wBlock wFmt = true :=
  c1_valid_sector_iff wBlock wBlock wFmt (by decide) rfl


/-- `_dword_unpack(value)`: 2-bit exponent in the top bits, three 10-bit
fields sign-extended via `(f ^ 0x200) - 0x200`, each shifted left by the
exponent (`x << e` on a Python int is `x * 2 ^ e`). -/
def dwordUnpack (value : Nat) : Int × Int × Int :=
  let exponent := value >>> 30
  ((((((value >>> 0) &&& 0x3ff) ^^^ 0x0200 : Nat) : Int) - 0x0200) * 2 ^ exponent,
   (((((value >>> 10) &&& 0x3ff) ^^^ 0x0200 : Nat) : Int) - 0x0200) * 2 ^ exponent,
   (((((value >>> 20) &&& 0x3ff) ^^^ 0x0200 : Nat) : Int) - 0x0200) * 2 ^ exponent)

/-- Reference packer for the documented DWORD layout
`eezzzzzzzzzzyyyyyyyyyyxxxxxxxxxx`: a 2-bit exponent above three 10-bit
twos-complement axis fields, x in the least-significant bits. -/
def dwordPack (e : Nat) (x y z : Int) : Nat :=
  (e <<< 30) + ((z % 1024).toNat <<< 20) + ((y % 1024).toNat <<< 10) + (x % 1024).toNat

theorem xor512 (f : Nat) (h : f < 1024) :
    f ^^^ 512 = if f < 512 then f + 512 else f - 512 := by
  revert f
  decide

/-- C4: for every 2-bit exponent and all three independent 10-bit
twos-complement axis values, unpacking the packed DWORD built with the
documented layout yields exactly the axis values scaled by `2 ^ e`, i.e.
`_dword_unpack` is a left inverse of the packing up to the exponent scale. -/
theorem c4_dword_unpack_pack (e : Nat) (x y z : Int) (he : e < 4)
    (hx1 : -512 ≤ x) (hx2 : x < 512) (hy1 : -512 ≤ y) (hy2 : y < 512)
    (hz1 : -512 ≤ z) (hz2 : z < 512) :
    dwordUnpack (dwordPack e x y z) = (x * 2 ^ e, y * 2 ^ e, z * 2 ^ e) := by
  have hfx : (x % 1024).toNat < 1024 := by omega
  have hfy : (y % 1024).toNat < 1024 := by omega
  have hfz : (z % 1024).toNat < 1024 := by omega
  have p30 : (2 : Nat) ^ 30 = 1073741824 := by norm_num
  have p20 : (2 : Nat) ^ 20 = 1048576 := by norm_num
  have p10 : (2 : Nat) ^ 10 = 1024 := by norm_num
  have p0 : (2 : Nat) ^ 0 = 1 := by norm_num
  have hval : dwordPack e x y z =
      e * 1073741824 + (z % 1024).toNat * 1048576 + (y % 1024).toNat * 1024 + (x % 1024).toNat := by
    rw [dwordPack, Nat.shiftLeft_eq, Nat.shiftLeft_eq, Nat.shiftLeft_eq, p30, p20, p10]
  have hsr : ∀ k : Nat, dwordPack e x y z >>> k = dwordPack e x y z / 2 ^ k :=
    fun k => Nat.shiftRight_eq_div_pow _ k
  have m10 : ∀ a : Nat, a &&& 1023 = a % 1024 := fun a => Nat.and_pow_two_sub_one_eq_mod a 10
  have hexp : dwordPack e x y z >>> 30 = e := by
    rw [hsr, hval, p30]
    omega
  have hgx : (dwordPack e x y z >>> 0) &&& 1023 = (x % 1024).toNat := by
    rw [hsr, m10, hval, p0]
    omega
  have hgy : (dwordPack e x y z >>> 10) &&& 1023 = (y % 1024).toNat := by
    rw [hsr, m10, hval, p10]
    omega
  have hgz : (dwordPack e x y z >>> 20) &&& 1023 = (z % 1024).toNat := by
    rw [hsr, m10, hval, p20]
    omega
  rw [dwordUnpack]
  simp only [hexp, hgx, hgy, hgz]
  have hrx : (((x % 1024).toNat ^^^ 512 : Nat) : Int) - 512 = x := by
    rw [xor512 (x % 1024).toNat hfx]; split <;> omega
  have hry : (((y % 1024).toNat ^^^ 512 : Nat) : Int) - 512 = y := by
    rw [xor512 (y % 1024).toNat hfy]; split <;> omega
  have hrz : (((z % 1024).toNat ^^^ 512 : Nat) : Int) - 512 = z := by
    rw [xor512 (z % 1024).toNat hfz]; split <;> omega
  rw [hrx, hry, hrz]

/-- Witness for C4: exponent 3 with axis values (-512, 511, -1). -/
theorem c4_dword_unpack_pack_witness :
    dwordUnpack (dwordPack 3 (-512) 511 (-1)) =
      ((-512) * 2 ^ 3, 511 * 2 ^ 3, (-1) * 2 ^ 3) :=
  c4_dword_unpack_pack 3 (-512) 511 (-1) (by decide) (by decide) (by decide)
    (by decide) (by decide) (by decide) (by decide)


/-- Per-sector timestamp-offset update of the vectorized
`CwaData._parse_times`: the gate is the fractional bit of the first sector
(`data_format`), while the fractional value comes from the device-fractional
field of each sector itself; `iFreq` is the truncated configured frequency. -/
def parseTimesOffset (refDf iFreq df : Nat) (tsOffset : Int) : Int :=
  if refDf &&& 0x8000 ≠ 0 then tsOffset + (((df &&& 0x7fff) * 2 * iFreq) / 65536 : Nat)
  else tsOffset

/-- Per-sector timestamp update of `CwaData._parse_times` (`ts` is the
`_fast_timestamp` value of the sector, a `uint32`; in the no-fractional case
the timestamp is only converted to float). -/
def parseTimesTimestamp (refDf df ts : Nat) : ℚ :=
  if refDf &&& 0x8000 ≠ 0 then (ts : ℚ) + (((df &&& 0x7fff) * 2 : Nat) : ℚ) / 65536
  else (ts : ℚ)

/-- C3 (amended): with f = 2 * (device_fractional & 0x7fff), a sector whose
device-fractional top bit is set gets floor(f * int(configured_rate) / 65536)
whole samples added to its timestamp offset -- the configured rate is
truncated to whole hertz before the multiply -- and f / 65536 seconds added
to its decoded timestamp.  In the per-sector parser `_parse_cwa_data` the
gate is the fractional bit of the sector itself and clear-bit sectors are
unadjusted; in the vectorized `_parse_times` the gate is the fractional bit
of the first sector, and the same arithmetic is then applied to every sector
from its own low 15 bits. -/
theorem c3_fractional_adjustment (df rateCode refDf iFreq : Nat)
    (tsOffset tsOff2 ts : Int) (ts2 : Nat) :
    ((df &&& 0x8000 ≠ 0 →
        adjustedTimestampOffset df rateCode tsOffset =
          tsOffset + ((2 * (df &&& 0x7fff) * intFrequency rateCode / 65536 : Nat) : Int) ∧
        adjustedTimestamp df ts = (ts : ℚ) + ((2 * (df &&& 0x7fff) : Nat) : ℚ) / 65536) ∧
     (df &&& 0x8000 = 0 →
        adjustedTimestampOffset df rateCode tsOffset = tsOffset ∧
        adjustedTimestamp df ts = (ts : ℚ))) ∧
    ((refDf &&& 0x8000 ≠ 0 →
        parseTimesOffset refDf iFreq df tsOff2 =
          tsOff2 + ((2 * (df &&& 0x7fff) * iFreq / 65536 : Nat) : Int) ∧
        parseTimesTimestamp refDf df ts2 = (ts2 : ℚ) + ((2 * (df &&& 0x7fff) : Nat) : ℚ) / 65536) ∧
     (refDf &&& 0x8000 = 0 →
        parseTimesOffset refDf iFreq df tsOff2 = tsOff2 ∧
        parseTimesTimestamp refDf df ts2 = (ts2 : ℚ))) := by
  have htf : df &&& 0x8000 ≠ 0 → timeFractionalOf df = 2 * (df &&& 0x7fff) := by
    intro h
    rw [timeFractionalOf, if_pos h]
    omega
  have htf0 : df &&& 0x8000 = 0 → timeFractionalOf df = 0 := by
    intro h
    rw [timeFractionalOf, if_neg (by omega)]
  have hshift : ∀ n : Nat, n >>> 16 = n / 65536 := by
    intro n
    rw [Nat.shiftRight_eq_div_pow]
  have hcomm : (df &&& 0x7fff) * 2 = 2 * (df &&& 0x7fff) := by ring
  refine ⟨⟨fun h => ⟨?_, ?_⟩, fun h => ⟨?_, ?_⟩⟩, ⟨fun h => ⟨?_, ?_⟩, fun h => ⟨?_, ?_⟩⟩⟩
  · rw [adjustedTimestampOffset, if_pos h, htf h, hshift]
  · rw [adjustedTimestamp, htf h]
  · rw [adjustedTimestampOffset, if_neg (by omega)]
  · rw [adjustedTimestamp, htf0 h]
    norm_num
  · rw [parseTimesOffset, if_pos h, hcomm]
  · rw [parseTimesTimestamp, if_pos h, hcomm]
  · rw [parseTimesOffset, if_neg (by omega)]
  · rw [parseTimesTimestamp, if_neg (by omega)]

/-- Witness for C3: a sector with device-fractional 0x8001 at rate code 10
(100 Hz) is adjusted in the slow parser, and a sector stream whose first
sector has no fractional bit gets no vectorized adjustment. -/
theorem c3_fractional_adjustment_witness :
    adjustedTimestampOffset 0x8001 10 3 =
      3 + ((2 * (0x8001 &&& 0x7fff) * intFrequency 10 / 65536 : Nat) : Int) ∧
    parseTimesOffset 0 100 0x8001 5 = 5 :=
  ⟨((c3_fractional_adjustment 0x8001 10 0 100 3 5 0 0).1.1 (by decide)).1,
   ((c3_fractional_adjustment 0x8001 10 0 100 3 5 0 0).2.2 (by decide)).1⟩

/-- C3 counterexample: rate code 6 configures a 6.25 Hz rate; for a sector
with device-fractional 0xFFFF (f = 65534) the code adds
(65534 * int(6.25)) >> 16 = 5 whole samples to the offset, while the claimed
floor(f * configured_rate / 65536) = floor(65534 * 6.25 / 65536) = 6. -/
theorem c3_counterexample :
    ¬ (adjustedTimestampOffset 0xFFFF 6 0 =
        0 + Int.floor ((timeFractionalOf 0xFFFF : ℚ) * cwaFrequency 6 / 65536)) := by
  have h1 : timeFractionalOf 0xFFFF = 65534 := by decide
  have h2 : adjustedTimestampOffset 0xFFFF 6 0 = 5 := by decide
  have h3 : cwaFrequency 6 = 25 / 4 := by
    rw [cwaFrequency]
    have h512 : (1 <<< (15 - (6 &&& 15)) : Nat) = 512 := by decide
    rw [h512]
    norm_num
  rw [h1, h2, h3]
  norm_num

structure SegSector where
  valid : Bool
  sessionId : Nat
  numAxesBPS : Nat
  sequenceId : Nat
  deriving Repr, DecidableEq

def dummySector : SegSector := ⟨false, 0, 0, 0⟩

/-- Modelled from the spec: `CwaData._find_segments` is present in the source
only as commented-out code, so the boundary condition is modelled from the
spec (with which that commented-out code agrees): a segment ends after sector
i when validity, session id or packing code changes between i and i+1, or
the sequence id of i+1 is not one more than that of i. -/
def segBoundary (a b : SegSector) : Bool :=
  a.valid != b.valid || a.sessionId != b.sessionId ||
    a.numAxesBPS != b.numAxesBPS || decide (b.sequenceId ≠ a.sequenceId + 1)

/-- Modelled from the spec: indices at which a segment ends -- every index
with a boundary to its successor, plus the final sector (the pandas
`diff(periods=-1)` of the last row is NaN, which compares as a boundary). -/
def segmentEnds (s : List SegSector) : List Nat :=
  if s.length = 0 then []
  else ((List.range (s.length - 1)).filter
      (fun i => segBoundary (s.getD i dummySector) (s.getD (i + 1) dummySector)))
    ++ [s.length - 1]

/-- Modelled from the spec: successive `slice(segment_start, end + 1)`
half-open segments built from the list of segment-end indices. -/
def segmentsOfEnds (ends : List Nat) (start : Nat) : List (Nat × Nat) :=
  match ends with
  | [] => []
  | e :: rest => (start, e + 1) :: segmentsOfEnds rest (e + 1)

/-- Modelled from the spec: the segment list of a sector stream. -/
def findSegments (s : List SegSector) : List (Nat × Nat) :=
  segmentsOfEnds (segmentEnds s) 0

theorem filter_range_single (k m : Nat) (h : k < m) :
    (List.range m).filter (fun i => decide (i = k)) = [k] := by
  induction m with
  | zero => omega
  | succ n ih =>
    rw [List.range_succ, List.filter_append]
    rcases Nat.lt_or_ge k n with h1 | h1
    · rw [ih h1]
      have h2 : List.filter (fun i => decide (i = k)) [n] = [] := by
        have : ¬ (n = k) := by omega
        simp [List.filter, this]
      rw [h2, List.append_nil]
    · have hk : k = n := by omega
      subst hk
      have h0 : (List.range k).filter (fun i => decide (i = k)) = [] := by
        rw [List.filter_eq_nil_iff]
        intro a ha
        rw [List.mem_range] at ha
        simp
        omega
      rw [h0]
      simp [List.filter]

/-- The boundary indices of a sector stream: every i with a boundary between
sectors i and i+1 (the `np.where` part of the segmenter, without the
always-true final NaN diff). -/
def boundaryEnds (s : List SegSector) : List Nat :=
  (List.range (s.length - 1)).filter
    (fun i => segBoundary (s.getD i dummySector) (s.getD (i + 1) dummySector))

theorem segmentsOfEnds_map_snd (ends : List Nat) (start : Nat) :
    (segmentsOfEnds ends start).map Prod.snd = ends.map (· + 1) := by
  induction ends generalizing start with
  | nil => rfl
  | cons e rest ih =>
    rw [segmentsOfEnds, List.map_cons, List.map_cons, ih]

theorem segmentsOfEnds_map_fst (ends : List Nat) (start : Nat) :
    (segmentsOfEnds ends start).map Prod.fst = (start :: ends.map (· + 1)).dropLast := by
  induction ends generalizing start with
  | nil => rfl
  | cons e rest ih =>
    rw [segmentsOfEnds, List.map_cons, ih, List.map_cons]
    rfl

/-- C6: for every nonempty sector stream the segmenter partitions the stream
at exactly its boundary points (validity change, session-id change,
packing-code change, or non-consecutive sequence id): the segment start
points are 0 followed by the successor of each boundary index, and the
segment end points are those same cut points followed by the stream length,
so consecutive segments abut and the cuts are exactly the boundaries.  In
particular, a stream whose only boundary is between sectors k and k+1 is
split into exactly the two segments (0, k+1) and (k+1, n). -/
theorem c6_segmenter_partitions (s : List SegSector) (h : 0 < s.length) :
    (findSegments s).map Prod.fst = 0 :: (boundaryEnds s).map (· + 1) ∧
    (findSegments s).map Prod.snd = (boundaryEnds s).map (· + 1) ++ [s.length] ∧
    (∀ k, k + 1 < s.length →
      (∀ i, i < s.length - 1 →
        segBoundary (s.getD i dummySector) (s.getD (i + 1) dummySector) = decide (i = k)) →
      findSegments s = [(0, k + 1), (k + 1, s.length)]) := by
  have hn : ¬ (s.length = 0) := by omega
  have hE : segmentEnds s = boundaryEnds s ++ [s.length - 1] := by
    rw [segmentEnds, if_neg hn, boundaryEnds]
  have hlen : s.length - 1 + 1 = s.length := by omega
  refine ⟨?_, ?_, ?_⟩
  · rw [findSegments, hE, segmentsOfEnds_map_fst, List.map_append, List.map_cons,
      List.map_nil, ← List.cons_append, List.dropLast_concat]
  · rw [findSegments, hE, segmentsOfEnds_map_snd, List.map_append, List.map_cons,
      List.map_nil, hlen]
  · intro k hk hb
    rw [findSegments, segmentEnds, if_neg hn]
    have hfil : (List.range (s.length - 1)).filter
        (fun i => segBoundary (s.getD i dummySector) (s.getD (i + 1) dummySector)) = [k] := by
      rw [List.filter_congr (fun i hi => hb i (List.mem_range.mp hi))]
      exact filter_range_single k (s.length - 1) (by omega)
    rw [hfil]
    show (0, k + 1) :: segmentsOfEnds [s.length - 1] (k + 1) = _
    rw [segmentsOfEnds, segmentsOfEnds, hlen]

/-- A four-sector stream, all valid, one session, sequence ids 0, 1, 5, 6:
its single boundary is the sequence gap at index 1. -/
def wStream : List SegSector :=
  [⟨true, 1, 50, 0⟩, ⟨true, 1, 50, 1⟩, ⟨true, 1, 50, 5⟩, ⟨true, 1, 50, 6⟩]

/-- Witness for C6 at `wStream`: the general cut-point characterization and
the concrete two-segment split at the gap. -/
theorem c6_segmenter_partitions_witness :
    (findSegments wStream).map Prod.fst = 0 :: (boundaryEnds wStream).map (· + 1) ∧
    (findSegments wStream).map Prod.snd = (boundaryEnds wStream).map (· + 1) ++ [wStream.length] ∧
    findSegments wStream = [(0, 2), (2, 4)] :=
  ⟨(c6_segmenter_partitions wStream (by decide)).1,
   (c6_segmenter_partitions wStream (by decide)).2.1,
   (c6_segmenter_partitions wStream (by decide)).2.2 1 (by decide) (by decide)⟩

/-- The row value written on iteration i of the packed-DWORD branch of
`_parse_cwa_data` (`ofs = 30 + i * 4`, axes divided by the accel unit). -/
def accelRowDword (b : List Nat) (accelUnit : Nat) (i : Nat) : ℚ × ℚ × ℚ :=
  ((dwordUnpack (leU32 b (30 + i * 4))).1 / (accelUnit : ℚ),
   (dwordUnpack (leU32 b (30 + i * 4))).2.1 / (accelUnit : ℚ),
   (dwordUnpack (leU32 b (30 + i * 4))).2.2 / (accelUnit : ℚ))

/-- The row value written on iteration i of the WORD branch of
`_parse_cwa_data` for the sensor starting at channel `axis`
(`ofs = 30 + i * 2 * channels + 2 * axis`); the source combines the two
bytes unsigned (`block[ofs] | (block[ofs+1] << 8)`). -/
def sampleRowWord (b : List Nat) (channels axis : Nat) (unit : ℚ) (i : Nat) : ℚ × ℚ × ℚ :=
  ((leU16 b (30 + i * 2 * channels + 2 * axis) : ℚ) / unit,
   (leU16 b (30 + i * 2 * channels + 2 * axis + 2) : ℚ) / unit,
   (leU16 b (30 + i * 2 * channels + 2 * axis + 4) : ℚ) / unit)

/-- The `samplesAccel` list of the packed-DWORD branch.  In the source,
`[[0, 0, 0]] * sampleCount` creates `sampleCount` references to one shared
mutable row and each loop iteration overwrites all three entries of that
row in place, so the materialized list is `sampleCount` copies of the row
left by the final iteration. -/
def samplesAccelDword (b : List Nat) (accelUnit sampleCount : Nat) : List (ℚ × ℚ × ℚ) :=
  List.replicate sampleCount
    ((List.range sampleCount).foldl (fun _ i => accelRowDword b accelUnit i) (0, 0, 0))

/-- The `samplesAccel`/`samplesGyro`/`samplesMag` list of the WORD branch,
with the same shared-row aliasing as the packed branch. -/
def samplesWord (b : List Nat) (channels axis : Nat) (unit : ℚ) (sampleCount : Nat) :
    List (ℚ × ℚ × ℚ) :=
  List.replicate sampleCount
    ((List.range sampleCount).foldl (fun _ i => sampleRowWord b channels axis unit i) (0, 0, 0))

/-- The DWORD slots decoded by the vectorized `_interpret_samples`: the
strided view covers all 120 packed DWORDs of every sector (payload bytes
30..509), with no reference to the per-sector sample count. -/
def rawSamplesDword (sectors : List (List Nat)) : List (Int × Int × Int) :=
  sectors.flatMap (fun b => (List.range 120).map (fun i => dwordUnpack (leU32 b (30 + 4 * i))))

/-- The WORD values decoded by the vectorized `_interpret_samples`: the
strided view covers all 240 signed 16-bit words of every sector. -/
def rawWordsAll (sectors : List (List Nat)) : List Int :=
  sectors.flatMap (fun b => (List.range 240).map (fun j => leS16 b (30 + 2 * j)))

theorem foldl_const_last {α : Type} (n : Nat) (f : Nat → α) (init : α) (h : 0 < n) :
    (List.range n).foldl (fun _ i => f i) init = f (n - 1) := by
  cases n with
  | zero => omega
  | succ m =>
    rw [List.range_succ, List.foldl_append]
    rfl

theorem leU32_congr (b b2 : List Nat) (i m : Nat) (hi : i + 4 ≤ m)
    (h : ∀ j, j < m → b.getD j 0 = b2.getD j 0) : leU32 b i = leU32 b2 i := by
  rw [leU32, leU32, h i (by omega), h (i + 1) (by omega), h (i + 2) (by omega),
    h (i + 3) (by omega)]

theorem leU16_congr (b b2 : List Nat) (i m : Nat) (hi : i + 2 ≤ m)
    (h : ∀ j, j < m → b.getD j 0 = b2.getD j 0) : leU16 b i = leU16 b2 i := by
  rw [leU16, leU16, h i (by omega), h (i + 1) (by omega)]

/-- C7 (amended): the slow per-sector parser decodes exactly sample_count
rows in both schemes and reads no payload byte at or beyond the slot
sample_count (its output is unchanged under any modification of those
bytes); the vectorized unpacker instead decodes every payload slot of every
sector -- 120 DWORD triples or 240 words per sector -- regardless of each
sector-level sample count. -/
theorem c7_sample_count_handling (bd bd2 bw bw2 : List Nat)
    (accelUnit sampleCount channels axis : Nat) (unit : ℚ) (sectors : List (List Nat))
    (hax : axis + 3 ≤ channels)
    (hd : ∀ j, j < 30 + 4 * sampleCount → bd.getD j 0 = bd2.getD j 0)
    (hw : ∀ j, j < 30 + 2 * channels * sampleCount → bw.getD j 0 = bw2.getD j 0) :
    (samplesAccelDword bd accelUnit sampleCount).length = sampleCount ∧
    (samplesWord bw channels axis unit sampleCount).length = sampleCount ∧
    samplesAccelDword bd accelUnit sampleCount = samplesAccelDword bd2 accelUnit sampleCount ∧
    samplesWord bw channels axis unit sampleCount = samplesWord bw2 channels axis unit sampleCount ∧
    (rawSamplesDword sectors).length = 120 * sectors.length ∧
    (rawWordsAll sectors).length = 240 * sectors.length := by
  refine ⟨List.length_replicate .., List.length_replicate .., ?_, ?_, ?_, ?_⟩
  · rcases Nat.eq_zero_or_pos sampleCount with h0 | h0
    · subst h0
      rw [samplesAccelDword, samplesAccelDword, List.replicate_zero, List.replicate_zero]
    · rw [samplesAccelDword, samplesAccelDword,
        foldl_const_last _ _ _ h0, foldl_const_last _ _ _ h0]
      rw [accelRowDword, accelRowDword,
        leU32_congr bd bd2 (30 + (sampleCount - 1) * 4) (30 + 4 * sampleCount) (by omega) hd]
  · rcases Nat.eq_zero_or_pos sampleCount with h0 | h0
    · subst h0
      rw [samplesWord, samplesWord, List.replicate_zero, List.replicate_zero]
    · obtain ⟨t, rfl⟩ : ∃ t, sampleCount = t + 1 := ⟨sampleCount - 1, by omega⟩
      have hkey : ∀ d : Nat, d ≤ 4 →
          30 + (t + 1 - 1) * 2 * channels + 2 * axis + d + 2 ≤
            30 + 2 * channels * (t + 1) := by
        intro d hd
        have e1 : (t + 1 - 1) * 2 * channels = 2 * (channels * t) := by
          have : t + 1 - 1 = t := rfl
          rw [this]
          ring
        have e2 : 2 * channels * (t + 1) = 2 * (channels * t) + 2 * channels := by ring
        omega
      rw [samplesWord, samplesWord,
        foldl_const_last _ _ _ h0, foldl_const_last _ _ _ h0]
      rw [sampleRowWord, sampleRowWord,
        leU16_congr bw bw2 (30 + (t + 1 - 1) * 2 * channels + 2 * axis)
          (30 + 2 * channels * (t + 1)) (hkey 0 (by omega)) hw,
        leU16_congr bw bw2 (30 + (t + 1 - 1) * 2 * channels + 2 * axis + 2)
          (30 + 2 * channels * (t + 1)) (hkey 2 (by omega)) hw,
        leU16_congr bw bw2 (30 + (t + 1 - 1) * 2 * channels + 2 * axis + 4)
          (30 + 2 * channels * (t + 1)) (hkey 4 (by omega)) hw]
  · induction sectors with
    | nil => rfl
    | cons c cs ih =>
      rw [rawSamplesDword, List.flatMap_cons, List.length_append]
      rw [rawSamplesDword] at ih
      rw [ih, List.length_map, List.length_range, List.length_cons]
      ring
  · induction sectors with
    | nil => rfl
    | cons c cs ih =>
      rw [rawWordsAll, List.flatMap_cons, List.length_append]
      rw [rawWordsAll] at ih
      rw [ih, List.length_map, List.length_range, List.length_cons]
      ring



/-- A synthetic 512-byte data sector with packed-DWORD format (numAxesBPS
0x30) and sample count 1 (a partially-filled sector: samples-per-sector is
120), with a checksum word making the sector sum wrap to zero. -/
def cBlock : List Nat :=
  [65, 88, 252, 1] ++ List.replicate 21 0 ++ [48, 0, 0, 1] ++ List.replicate 481 0 ++ [194, 117]

/-- C7 counterexample: `cBlock` declares sample_count 1 (less than the 120
samples per sector of its packed-DWORD format), yet the vectorized scheme
emits 120 decoded sample slots for the one-sector stream, so the claim that
neither scheme reads or emits payload slots at index sample_count or beyond
is false. -/
theorem c7_counterexample :
    (parseCwaData cBlock).elim 0 SectorData.sampleCount = 1 ∧
      ¬ ((rawSamplesDword [cBlock]).length ≤ 1) := by
  constructor
  · decide
  · have h : (rawSamplesDword [cBlock]).length = 120 := by
      rw [rawSamplesDword]
      simp
    omega

/-- Witness for C7 at the synthetic sectors `cBlock` and `wBlock`. -/
theorem c7_sample_count_handling_witness :
    (samplesAccelDword cBlock 256 1).length = 1 ∧
    (samplesWord wBlock 3 0 256 1).length = 1 ∧
    samplesAccelDword cBlock 256 1 = samplesAccelDword cBlock 256 1 ∧
    samplesWord wBlock 3 0 256 1 = samplesWord wBlock 3 0 256 1 ∧
    (rawSamplesDword [cBlock]).length = 120 * [cBlock].length ∧
    (rawWordsAll [cBlock]).length = 240 * [cBlock].length :=
  c7_sample_count_handling cBlock cBlock wBlock wBlock 256 1 3 0 256 [cBlock]
    (by decide) (fun j hj => rfl) (fun j hj => rfl)

theorem getD_replicate {α : Type} (n i : Nat) (a d : α) (h : i < n) :
    (List.replicate n a).getD i d = a := by
  induction n generalizing i with
  | zero => omega
  | succ m ih =>
    cases i with
    | zero => rfl
    | succ j =>
      rw [List.replicate_succ]
      exact ih j (by omega)

/-- C10: in `_parse_cwa_data` with extractData=True, `[[0,0,0]] * sampleCount`
makes every row of `samplesAccel` (and of the gyro/mag lists of the WORD
scheme) the same mutable list object, so for sample_count at least 2 every
row of the returned list holds the values of the last decoded sample. -/
theorem c10_aliased_sample_rows (b : List Nat) (accelUnit sampleCount channels axis : Nat)
    (unit : ℚ) (h2 : 2 ≤ sampleCount) :
    (∀ i, i < sampleCount →
      (samplesAccelDword b accelUnit sampleCount).getD i (0, 0, 0) =
        accelRowDword b accelUnit (sampleCount - 1)) ∧
    (∀ i, i < sampleCount →
      (samplesWord b channels axis unit sampleCount).getD i (0, 0, 0) =
        sampleRowWord b channels axis unit (sampleCount - 1)) := by
  have h0 : 0 < sampleCount := by omega
  constructor <;> intro i hi
  · rw [samplesAccelDword, foldl_const_last _ _ _ h0, getD_replicate _ _ _ _ hi]
  · rw [samplesWord, foldl_const_last _ _ _ h0, getD_replicate _ _ _ _ hi]

/-- Witness for C10: with sample count 2, row 0 equals the row decoded on
the final iteration (index 1). -/
theorem c10_aliased_sample_rows_witness :
    (samplesAccelDword cBlock 256 2).getD 0 (0, 0, 0) = accelRowDword cBlock 256 1 :=
  (c10_aliased_sample_rows cBlock 256 2 3 0 256 (by decide)).1 0 (by decide)

/-- Accelerometer-range decode of a rate code: `16 >> (rate >> 6)` g
(line 243 of the header parser; the data parser special-cases rate code 0
to the same value 16). -/
def accelRangeOf (rateCode : Nat) : Nat := 16 >>> (rateCode >>> 6)

/-- Modelled from the spec: the repository has no rate-code encoder in its
Python sources (synthetic files come from an external `omsynth` binary), so
`rate_code(frequency, range)` is modelled from the spec as the selection of
the low nibble whose decoded frequency matches and the top two bits whose
decoded range matches. -/
def rateCodeEncode (f : ℚ) (g : Nat) : Nat :=
  ((List.range 4).foldl (fun acc r => if 16 >>> r = g then r else acc) 0) * 64 +
    (List.range 16).foldl (fun acc n => if cwaFrequency n = f then n else acc) 0

theorem foldl_select (m n : Nat) (p : Nat → Prop) [DecidablePred p] (h : n < m)
    (hp : ∀ k, k < m → (p k ↔ k = n)) :
    (List.range m).foldl (fun acc k => if p k then k else acc) 0 = n := by
  induction m with
  | zero => omega
  | succ t ih =>
    rw [List.range_succ, List.foldl_append]
    simp only [List.foldl_cons, List.foldl_nil]
    rcases Nat.lt_or_ge n t with h1 | h1
    · have hnp : ¬ p t := by rw [hp t (by omega)]; omega
      rw [if_neg hnp]
      exact ih h1 (fun k hk => hp k (by omega))
    · have hnt : n = t := by omega
      have hpt : p t := by rw [hp t (by omega)]; omega
      rw [if_pos hpt, hnt]

/-- The frequency decode determines, and is determined by, the low nibble of
the rate code. -/
theorem cwaFrequency_inj (a b : Nat) :
    cwaFrequency a = cwaFrequency b ↔ a &&& 15 = b &&& 15 := by
  have hma : a &&& 15 = a % 16 := Nat.and_pow_two_sub_one_eq_mod a 4
  have hmb : b &&& 15 = b % 16 := Nat.and_pow_two_sub_one_eq_mod b 4
  rw [cwaFrequency, cwaFrequency, Nat.shiftLeft_eq, Nat.shiftLeft_eq, one_mul, one_mul]
  constructor
  · intro h
    have hane : ((2 ^ (15 - (a &&& 15)) : Nat) : ℚ) ≠ 0 := by positivity
    have hbne : ((2 ^ (15 - (b &&& 15)) : Nat) : ℚ) ≠ 0 := by positivity
    rw [div_eq_div_iff hane hbne] at h
    have h2 : ((2 ^ (15 - (b &&& 15)) : Nat) : ℚ) = ((2 ^ (15 - (a &&& 15)) : Nat) : ℚ) :=
      mul_left_cancel₀ (show (3200 : ℚ) ≠ 0 by norm_num) h
    have h3 : (2 ^ (15 - (b &&& 15)) : Nat) = 2 ^ (15 - (a &&& 15)) := Nat.cast_inj.mp h2
    have h4 : 15 - (b &&& 15) = 15 - (a &&& 15) := Nat.pow_right_injective (le_refl 2) h3
    omega
  · intro h
    rw [h]

/-- C8 (amended): decoding a rate code yields frequency
`3200 / 2 ^ (15 - (code & 0xF))` Hz and range `16 >> (code >> 6)` g; the
spec-modelled encoder followed by this decode reproduces every legal
frequency/range pair (low nibble below 16, range bits below 4); and a rate
code with low nibble 10 -- not 13 -- decodes to 100 Hz (low nibble 13 gives
800 Hz). -/
theorem c8_rate_code_round_trip (n r c : Nat) (hn : n < 16) (hr : r < 4)
    (hc : c &&& 15 = 10) :
    rateCodeEncode (cwaFrequency n) (16 >>> r) = r * 64 + n ∧
    cwaFrequency (r * 64 + n) = cwaFrequency n ∧
    accelRangeOf (r * 64 + n) = 16 >>> r ∧
    cwaFrequency c = 100 := by
  have hmask : ∀ x : Nat, x &&& 15 = x % 16 := fun x => Nat.and_pow_two_sub_one_eq_mod x 4
  have hrange : ∀ u < 4, ∀ k < 4, (16 >>> k = 16 >>> u ↔ k = u) := by decide
  refine ⟨?_, ?_, ?_, ?_⟩
  · rw [rateCodeEncode]
    have hinner : (List.range 16).foldl
        (fun acc k => if cwaFrequency k = cwaFrequency n then k else acc) 0 = n := by
      refine foldl_select 16 n _ hn (fun k hk => ?_)
      rw [cwaFrequency_inj, hmask, hmask]
      omega
    have houter : (List.range 4).foldl
        (fun acc k => if 16 >>> k = 16 >>> r then k else acc) 0 = r :=
      foldl_select 4 r _ hr (fun k hk => hrange r hr k hk)
    rw [hinner, houter]
  · rw [cwaFrequency_inj, hmask, hmask]
    omega
  · rw [accelRangeOf]
    have hd : (r * 64 + n) >>> 6 = r := by
      rw [Nat.shiftRight_eq_div_pow]
      omega
    rw [hd]
  · rw [cwaFrequency, hc]
    have h32 : (1 <<< (15 - 10) : Nat) = 32 := by decide
    rw [h32]
    norm_num

/-- Witness for C8: 100 Hz at range 4 g encodes to rate code 0x8A = 138 and
decodes back; rate code 0x4A (low nibble 10) gives 100 Hz. -/
theorem c8_rate_code_round_trip_witness :
    rateCodeEncode (cwaFrequency 10) (16 >>> 2) = 2 * 64 + 10 ∧
    cwaFrequency (2 * 64 + 10) = cwaFrequency 10 ∧
    accelRangeOf (2 * 64 + 10) = 16 >>> 2 ∧
    cwaFrequency 74 = 100 :=
  c8_rate_code_round_trip 10 2 74 (by decide) (by decide) (by decide)

/-- C8 counterexample: the claim says a rate code with low nibble 13 decodes
to 100 Hz; by the decode formula of the code it is 3200 / 2^2 = 800 Hz. -/
theorem c8_counterexample : ¬ (cwaFrequency 13 = 100) := by
  have h4 : (1 <<< (15 - (13 &&& 15)) : Nat) = 4 := by decide
  rw [cwaFrequency, h4]
  norm_num

/-- The channel-selection options of the `CwaData` constructor. -/
structure IncludeOptions where
  time : Bool
  accel : Bool
  gyro : Bool
  mag : Bool
  light : Bool
  temperature : Bool
  deriving Repr, DecidableEq

/-- The column assembly of `CwaData._interpret_samples`: the raw-format
dispatch (packed-DWORD when 3 channels and 4 bytes per sample, WORD when
2 bytes per axis, otherwise the Unhandled exception), the
has_accel/has_gyro/has_mag determination (the axis key is present in the
format dictionary exactly when the axis value is nonnegative), the axis
count, and the label list built in the fixed order time, accel, gyro, mag,
light, temperature, with the final axis-accounting check. -/
def interpretSamplesLabels (fmt : SectorData) (opts : IncludeOptions) :
    Except String (List String) :=
  if ¬ (fmt.channels = 3 ∧ fmt.bytesPerSample = 4) ∧ ¬ (fmt.bytesPerAxis = 2) then
    .error "Unhandled data format"
  else
    let has_accel := opts.accel && decide (0 ≤ fmt.accelAxis)
    let has_gyro := opts.gyro && decide (0 ≤ fmt.gyroAxis)
    let has_mag := opts.mag && decide (0 ≤ fmt.magAxis)
    let axis_count := (if opts.time then 1 else 0) + (if has_accel then 3 else 0) +
      (if has_gyro then 3 else 0) + (if has_mag then 3 else 0) +
      (if opts.light then 1 else 0) + (if opts.temperature then 1 else 0)
    let labels := (if opts.time then ["time"] else []) ++
      (if has_accel then ["accel_x", "accel_y", "accel_z"] else []) ++
      (if has_gyro then ["gyro_x", "gyro_y", "gyro_z"] else []) ++
      (if has_mag then ["mag_x", "mag_y", "mag_z"] else []) ++
      (if opts.light then ["light"] else []) ++
      (if opts.temperature then ["temperature"] else [])
    if labels.length ≠ axis_count then
      .error "Internal error: not all output axes accounted for"
    else .ok labels

/-- C9: on an accel-only data format (3 channels, in either of the two known
packings), the column assembly succeeds for every option combination --
even with include_gyro or include_mag set -- and produces no gyro and no
mag columns: the labels are exactly the requested subset of
[time, accel_x, accel_y, accel_z, light, temperature] in the fixed order. -/
theorem c9_accel_only_no_gyro_columns (b : List Nat) (fmt : SectorData)
    (opts : IncludeOptions) (hf : parseCwaData b = some fmt) (hch : fmt.channels = 3)
    (hpack : fmt.bytesPerAxis = 0 ∨ fmt.bytesPerAxis = 2) :
    interpretSamplesLabels fmt opts =
      .ok ((if opts.time then ["time"] else []) ++
        (if opts.accel then ["accel_x", "accel_y", "accel_z"] else []) ++
        (if opts.light then ["light"] else []) ++
        (if opts.temperature then ["temperature"] else [])) := by
  rw [parseCwaData] at hf
  split at hf
  case isFalse => exact absurd hf (by simp)
  case isTrue hgate =>
  simp only [Option.some.injEq] at hf
  have haxdef : fmt.accelAxis =
      if 6 ≤ fmt.channels then 3 else if 3 ≤ fmt.channels then 0 else -1 := by
    rw [← hf]
  have hgxdef : fmt.gyroAxis = if 6 ≤ fmt.channels then 0 else -1 := by
    rw [← hf]
  have hmxdef : fmt.magAxis = if 9 ≤ fmt.channels then 6 else -1 := by
    rw [← hf]
  have hbpsdef : fmt.bytesPerSample =
      (if fmt.bytesPerAxis = 0 ∧ fmt.channels = 3 then 4
       else if 0 < fmt.bytesPerAxis ∧ 0 < fmt.channels then fmt.bytesPerAxis * fmt.channels
       else 4) := by
    rw [← hf]
  rw [hch] at haxdef hgxdef hmxdef hbpsdef
  norm_num at haxdef hgxdef hmxdef
  have hdispatch : ¬ (¬ (fmt.channels = 3 ∧ fmt.bytesPerSample = 4) ∧
      ¬ (fmt.bytesPerAxis = 2)) := by
    rcases hpack with h0 | h2
    · rw [hbpsdef, if_pos ⟨h0, rfl⟩]
      simp [hch]
    · simp [h2]
  rw [interpretSamplesLabels, if_neg hdispatch]
  simp only [haxdef, hgxdef, hmxdef]
  rcases opts with ⟨t, a, g, m, li, te⟩
  cases t <;> cases a <;> cases g <;> cases m <;> cases li <;> cases te <;> simp



/-- Witness for C9: `wBlock` (accel-only WORD format) with time, accel, gyro
and mag requested yields only the time and accel columns, with no error. -/
theorem c9_accel_only_no_gyro_columns_witness :
    interpretSamplesLabels wFmt ⟨true, true, true, true, false, false⟩ =
      .ok ((if true then ["time"] else []) ++
        (if true then ["accel_x", "accel_y", "accel_z"] else []) ++
        (if false then ["light"] else []) ++
        (if false then ["temperature"] else [])) :=
  c9_accel_only_no_gyro_columns wBlock wFmt ⟨true, true, true, true, false, false⟩
    rfl rfl (Or.inr rfl)

end Cwa
